import Mathlib

/-!
Verification of the push-notification client in `src/ExpoClient.ts`
(vpctorr/expo-server-sdk-js) against its natural-language specification.

The development is a shallow embedding of the TypeScript source:

* `JValue` models the dynamically typed JSON values (`any`) that flow
  through the client; `jsLengthProp` models a JavaScript `x.length`
  property access, including the `TypeError` raised on `null`/`undefined`.
* `ExpoPushMessage` models a push message: the `to` field (a single token
  or a token list) plus an opaque `payload` standing for every
  non-recipient field (title, body, data, ...), which the chunker never
  inspects.
* `chunkPushNotifications` is a direct translation of the chunking loop:
  the JavaScript `for` loops become `List.foldl` over an explicit state
  (`ChunkState` = produced chunks, current chunk, current recipient
  count), and the trailing flush becomes `chunkFinalize`.
* The response/error normalization (`requestAsync`,
  `parseErrorResponseAsync`, `getTextResponseError`, `getErrorFromResult`,
  `getErrorFromResultError`) is translated over an abstract response body
  (`ResponseBody`): `JSON.parse` is external, so a body is either
  `unparsable` raw text, raw text with the non-object JSON value it
  parses to (`parsedValue`), or raw text together with its `parsed`
  envelope object.
* `promiseRetryGo` models the `p-retry` wrapper used by
  `sendPushNotificationsAsync` (`retries = 2`, `factor = 2`,
  `minTimeout = 1000`, retry only when `shouldRetry` accepts the error);
  the transport is abstracted as one `HttpResponse` per attempt, and the
  list of performed backoff delays is returned alongside the outcome.
* `isExpoPushToken` translates the token predicate, with the
  `/^[a-z\d]{8}-[a-z\d]{4}-[a-z\d]{4}-[a-z\d]{4}-[a-z\d]{12}$/i` regular
  expression modelled by `uuidMatch` over the character list.
-/

/-- A JavaScript/JSON value, as produced by `JSON.parse` (plus
`undefined`, which models an absent property). -/
inductive JValue where
  | undefined
  | null
  | bool (b : Bool)
  | num (n : Int)
  | str (s : String)
  | arr (xs : List JValue)
  | obj (fields : List (String × JValue))

/-- Models the JavaScript test `x != null` (loose inequality, false
exactly on `null` and `undefined`). -/
def jsNonNullish : JValue → Bool
  | .null => false
  | .undefined => false
  | _ => true

/-- Models `Array.isArray(x)`. -/
def jsIsArray : JValue → Bool
  | .arr _ => true
  | _ => false

mutual
/-- Models JavaScript `String(v)` string conversion as used by template
literals. -/
def jsDisplay : JValue → String
  | .undefined => "undefined"
  | .null => "null"
  | .bool b => if b then "true" else "false"
  | .num n => toString n
  | .str s => s
  | .arr xs => jsDisplayArr xs
  | .obj _ => "[object Object]"

/-- Array-to-string conversion: elements joined with a comma, with
`null`/`undefined` elements rendered as the empty string. -/
def jsDisplayArr : List JValue → String
  | [] => ""
  | [x] => jsDisplayElem x
  | x :: xs => jsDisplayElem x ++ "," ++ jsDisplayArr xs

/-- One element of an array being converted to a string. -/
def jsDisplayElem : JValue → String
  | .null => ""
  | .undefined => ""
  | v => jsDisplay v
end

/-- Models the JavaScript property access `x.length`: a `TypeError` on
`null`/`undefined`, the length for arrays and strings, the `length`
field for objects, and `undefined` otherwise. -/
def jsLengthProp : JValue → Except String JValue
  | .null => .error "TypeError: Cannot read properties of null"
  | .undefined => .error "TypeError: Cannot read properties of undefined"
  | .str s => .ok (.num s.length)
  | .num _ => .ok .undefined
  | .bool _ => .ok .undefined
  | .arr xs => .ok (.num xs.length)
  | .obj fields => .ok ((fields.lookup "length").getD .undefined)

/-- The recipient field of a message: a single token or a token list
(`to: ExpoPushToken | ExpoPushToken[]`). -/
inductive Recipient where
  | single (token : String)
  | list (tokens : List String)
deriving DecidableEq, Repr

/-- A push message: its recipient field plus an opaque `payload` standing
for all non-recipient fields (title, body, data, ...), which the client
never inspects. -/
structure ExpoPushMessage (α : Type) where
  «to» : Recipient
  payload : α
deriving DecidableEq, Repr

/-- The recipients of one message, as a flat token list. -/
def Recipient.tokens : Recipient → List String
  | .single t => [t]
  | .list ts => ts

/-- The flattened recipient list of a message list, in order. -/
def flatRecipients (messages : List (ExpoPushMessage α)) : List String :=
  messages.flatMap (fun m => m.«to».tokens)

/-- The flattened recipient list of a chunk list, in order. -/
def flatAll (chunks : List (List (ExpoPushMessage α))) : List String :=
  chunks.flatMap flatRecipients

/-- `PUSH_NOTIFICATION_CHUNK_LIMIT` from the source. -/
def PUSH_NOTIFICATION_CHUNK_LIMIT : Nat := 100

/-- `PUSH_NOTIFICATION_RECEIPT_CHUNK_LIMIT` from the source. -/
def PUSH_NOTIFICATION_RECEIPT_CHUNK_LIMIT : Nat := 300

/-- `DEFAULT_CONCURRENT_REQUEST_LIMIT` from the source. -/
def DEFAULT_CONCURRENT_REQUEST_LIMIT : Nat := 6

/-- The mutable state of the `chunkPushNotifications` loop: the chunks
pushed so far (`chunks`), the chunk being filled (`chunk`), and the
running recipient counter for that chunk (`chunkMessagesCount`). -/
structure ChunkState (α : Type) where
  chunks : List (List (ExpoPushMessage α))
  chunk : List (ExpoPushMessage α)
  count : Nat
deriving DecidableEq, Repr

/-- One iteration of the inner `for (const recipient of message.to)`
loop: push the recipient onto the accumulating partial recipient list,
bump the counter, and when the counter reaches the limit close the
current chunk with a copy of the message restricted to the partial list
(`chunk.push({ ...message, to: partialTo })`). The first component of
the state is the partial recipient list `partialTo`. -/
def chunkRecipientStep (limit : Nat) (message : ExpoPushMessage α)
    (s : List String × ChunkState α) (recipient : String) :
    List String × ChunkState α :=
  if limit ≤ s.2.count + 1 then
    ([], { chunks := s.2.chunks ++ [s.2.chunk ++ [{ message with «to» := .list (s.1 ++ [recipient]) }]],
           chunk := [], count := 0 })
  else
    (s.1 ++ [recipient], { s.2 with count := s.2.count + 1 })

/-- The flush after the inner loop: `if (partialTo.length)`, append a
copy of the message restricted to the remaining partial recipient list
to the still-open chunk. -/
def chunkListFlush (message : ExpoPushMessage α)
    (s : List String × ChunkState α) : ChunkState α :=
  if s.1.length ≠ 0 then
    { s.2 with chunk := s.2.chunk ++ [{ message with «to» := .list s.1 }] }
  else
    s.2

/-- Processing of one message whose recipient field is a list: run the
inner loop over its tokens, then flush any remaining partial recipient
list. -/
def chunkListMessage (limit : Nat) (message : ExpoPushMessage α)
    (tokens : List String) (st : ChunkState α) : ChunkState α :=
  chunkListFlush message (tokens.foldl (chunkRecipientStep limit message) ([], st))

/-- The `if (chunkMessagesCount >= PUSH_NOTIFICATION_CHUNK_LIMIT)` check
at the bottom of the outer loop: close and push the current chunk when
the counter has reached the limit. -/
def chunkClose (limit : Nat) (st : ChunkState α) : ChunkState α :=
  if limit ≤ st.count then
    { chunks := st.chunks ++ [st.chunk], chunk := [], count := 0 }
  else
    st

/-- One iteration of the outer `for (const message of messages)` loop:
dispatch on the recipient field, then close the chunk if the counter has
reached the limit. -/
def chunkStep (limit : Nat) (st : ChunkState α) (message : ExpoPushMessage α) :
    ChunkState α :=
  chunkClose limit
    (match message.«to» with
     | .list ts => chunkListMessage limit message ts st
     | .single _ => { st with chunk := st.chunk ++ [message], count := st.count + 1 })

/-- The trailing `if (chunkMessagesCount) chunks.push(chunk)` flush. -/
def chunkFinalize (st : ChunkState α) : List (List (ExpoPushMessage α)) :=
  if st.count ≠ 0 then st.chunks ++ [st.chunk] else st.chunks

/-- `chunkPushNotifications` from the source: the two nested loops as a
fold over `ChunkState`, with the hard-coded chunk limit. -/
def chunkPushNotifications (messages : List (ExpoPushMessage α)) :
    List (List (ExpoPushMessage α)) :=
  chunkFinalize (messages.foldl (chunkStep PUSH_NOTIFICATION_CHUNK_LIMIT) ⟨[], [], 0⟩)

/-- `Expo._getActualMessageCount` from the source: a fold adding the
recipient-list length for list recipients and 1 for scalar recipients. -/
def _getActualMessageCount (messages : List (ExpoPushMessage α)) : Nat :=
  messages.foldl
    (fun total message =>
      match message.«to» with
      | .list ts => total + ts.length
      | .single _ => total + 1)
    0

/-- One entry of the `errors` list of the API error envelope
(`ApiResultError` in the source): `message` and `code` are declared
strings, `details` is an arbitrary value (`undefined` when absent), `stack`
an optional string. -/
structure ApiResultError where
  message : String
  code : String
  details : JValue := .undefined
  stack : Option String := none

/-- The parsed API envelope (`ApiResult` in the source): an optional
`errors` list and an arbitrary `data` value (`undefined` when absent). -/
structure ApiResult where
  errors : Option (List ApiResultError) := none
  data : JValue := .undefined

/-- A normalized single API error as built by `getErrorFromResultError`:
an `Error` whose message is the entry's message, with `code`, optional
`details` and optional `serverStack` attached. -/
structure SingleErr where
  message : String
  code : String
  details : Option JValue := none
  serverStack : Option String := none

/-- Diagnostic payload attached as `errorData`: the parsed response body,
either the typed envelope object or a non-object JSON value. -/
inductive ErrorData where
  | envelope (result : ApiResult)
  | value (v : JValue)

/-- A normalized error value (the dynamically extended `ExtensibleError`
of the source, or a thrown runtime error): the error `name` (`Error` for
everything the client constructs itself, `TypeError` for a runtime
property-access failure) and message, plus every optional field any code
path may attach (`code`, `details`, `serverStack`, `others`,
`statusCode`, `errorText`, `errorData`, `data`). A field is `none` when
the corresponding path never set it. -/
structure NormError where
  message : String
  name : String := "Error"
  code : Option String := none
  details : Option JValue := none
  serverStack : Option String := none
  others : Option (List SingleErr) := none
  statusCode : Option Nat := none
  errorText : Option String := none
  errorData : Option ErrorData := none
  data : Option JValue := none

/-- `getErrorFromResultError` from the source: build an error from one
envelope entry, attaching `details` only when it is neither `null` nor
`undefined` and `serverStack` only when `stack` is present. -/
def getErrorFromResultError (errorData : ApiResultError) : SingleErr :=
  { message := errorData.message
    code := errorData.code
    details := if jsNonNullish errorData.details then some errorData.details else none
    serverStack := errorData.stack }

/-- `getErrorFromResult` from the source: promote the first envelope
error to the primary error, attach the remaining entries (normalized, in
order) as `others` when there are any, and attach the HTTP status code.
When the envelope has no first error the function itself throws a bare
`Error('Expected at least one error from Expo')`. -/
def getErrorFromResult (status : Nat) (result : ApiResult) : NormError :=
  match result.errors with
  | some (errorData :: otherErrorData) =>
    let base := getErrorFromResultError errorData
    { message := base.message
      code := some base.code
      details := base.details
      serverStack := base.serverStack
      others := if otherErrorData.length ≠ 0
                then some (otherErrorData.map getErrorFromResultError)
                else none
      statusCode := some status }
  | _ => { message := "Expected at least one error from Expo" }

/-- `getTextResponseErrorAsync` from the source: an error built from the
HTTP status code and the raw response text, with `statusCode` and
`errorText` attached. -/
def getTextResponseError (status : Nat) (text : String) : NormError :=
  { message := "Expo responded with an error with status code " ++ toString status ++ ": " ++ text
    statusCode := some status
    errorText := some text }

/-- The runtime `TypeError` raised by reading the `errors` property of a
nullish parse result (`result.errors` in the envelope checks). The
source throws this exception instead of returning a normalized error;
through `requestAsync` both surface as the same thrown error object. -/
def errorsAccessTypeError (value : JValue) : NormError :=
  { name := "TypeError"
    message := "Cannot read properties of " ++ jsDisplay value ++ " (reading errors)" }

/-- Is the value a JSON object (the only parse results represented by the
typed envelope `ApiResult`)? -/
def isJsObjectValue : JValue → Bool
  | .obj _ => true
  | _ => false

/-- A raw response body. `JSON.parse` is external to the client, so a
body is either raw text that does not parse, raw text whose parse result
is not a JSON object (`null`, a boolean, a number, a string, or an
array — values carrying no `errors`/`data` properties), or raw text
together with the envelope object it parses to. -/
inductive ResponseBody where
  | unparsable (text : String)
  | parsedValue (text : String) (value : JValue)
  | parsed (text : String) (result : ApiResult)

/-- A raw HTTP response: status code and body. -/
structure HttpResponse where
  status : Nat
  body : ResponseBody

/-- `parseErrorResponseAsync` from the source, used on non-200 responses:
try to parse the body; on parse failure fall back to the text error; when
the parse result is `null` the `!result.errors` check itself throws a
runtime `TypeError`; when the parse result is any other non-object value
or an envelope lacking a non-empty `errors` array, fall back to the text
error with the parsed result attached as `errorData`; otherwise normalize
the envelope errors. -/
def parseErrorResponseAsync (status : Nat) (body : ResponseBody) : NormError :=
  match body with
  | .unparsable text => getTextResponseError status text
  | .parsedValue text value =>
    if jsNonNullish value then
      { getTextResponseError status text with errorData := some (.value value) }
    else
      errorsAccessTypeError value
  | .parsed text result =>
    match result.errors with
    | some (_ :: _) => getErrorFromResult status result
    | _ => { getTextResponseError status text with errorData := some (.envelope result) }

/-- `requestAsync` from the source, after the transport returned a
response: non-200 statuses are normalized by `parseErrorResponseAsync`;
a 200 response with an unparsable body becomes a text error; a 200 body
parsing to `null` throws a runtime `TypeError` at `if (result.errors)`,
while other non-object parse results fall through to returning the
(absent, hence `undefined`) `data` property; a parsed envelope with an
`errors` field present becomes `getErrorFromResult`; otherwise the
`data` field is returned as the success payload. -/
def requestAsync (response : HttpResponse) : Except NormError JValue :=
  if response.status ≠ 200 then
    .error (parseErrorResponseAsync response.status response.body)
  else
    match response.body with
    | .unparsable text => .error (getTextResponseError response.status text)
    | .parsedValue _ value =>
      if jsNonNullish value then .ok .undefined
      else .error (errorsAccessTypeError value)
    | .parsed _ result =>
      if result.errors.isSome then .error (getErrorFromResult response.status result)
      else .ok result.data

/-- The retry configuration of `p-retry` as used by the source. -/
structure RetryOptions where
  retries : Nat
  factor : Nat
  minTimeout : Nat

/-- `REQUEST_RETRY_OPTIONS` from the source. -/
def REQUEST_RETRY_OPTIONS : RetryOptions := { retries := 2, factor := 2, minTimeout := 1000 }

/-- The `shouldRetry` callback passed to `p-retry` by
`sendPushNotificationsAsync`: retry exactly when the error's
`statusCode` is 429. -/
def shouldRetry429 (error : NormError) : Bool :=
  error.statusCode == some 429

/-- The `p-retry` loop: run the attempt; on success return its value; on
failure consult `shouldRetry` and, while retries remain, wait
`minTimeout * factor ^ attempt` and try again, otherwise propagate the
last error. The returned list records the backoff delays performed, in
order. `attempt` counts previous attempts (0 for the first). -/
def promiseRetryGo (f : Nat → Except NormError JValue) (shouldRetry : NormError → Bool)
    (factor minTimeout : Nat) : Nat → Nat → Except NormError JValue × List Nat
  | 0, attempt => (f attempt, [])
  | remaining + 1, attempt =>
    match f attempt with
    | .ok v => (.ok v, [])
    | .error e =>
      if shouldRetry e then
        let rest := promiseRetryGo f shouldRetry factor minTimeout remaining (attempt + 1)
        (rest.1, minTimeout * factor ^ attempt :: rest.2)
      else
        (.error e, [])

/-- `promiseRetry(f, { ...REQUEST_RETRY_OPTIONS, shouldRetry })`. -/
def promiseRetry (f : Nat → Except NormError JValue) (shouldRetry : NormError → Bool)
    (options : RetryOptions) : Except NormError JValue × List Nat :=
  promiseRetryGo f shouldRetry options.factor options.minTimeout options.retries 0

/-- The text `Expected Expo to respond with N ticket(s) but got M` of the
count-mismatch error in `sendPushNotificationsAsync`. -/
def countMismatchMessage (expected : Nat) (got : String) : String :=
  let noun := if expected = 1 then "ticket" else "tickets"
  "Expected Expo to respond with " ++ toString expected ++ " " ++ noun ++ " but got " ++ got

/-- A failure of `sendPushNotificationsAsync`: either a thrown normalized
error, or a JavaScript runtime `TypeError` (raised by the `data.length`
access in the mismatch-message template when `data` is `null` or
`undefined`). -/
inductive SendFailure where
  | apiError (e : NormError)
  | typeError (message : String)

/-- The ticket-count validation at the end of `sendPushNotificationsAsync`:
`if (!Array.isArray(data) || data.length !== actualMessagesCount) throw`
an error carrying the mismatch message (which evaluates `data.length`)
and the raw payload in its `data` field; otherwise return the payload
unchanged. -/
def validateTickets (expected : Nat) (data : JValue) : Except SendFailure JValue :=
  match data with
  | .arr xs =>
    if xs.length = expected then
      .ok (.arr xs)
    else
      .error (.apiError
        { message := countMismatchMessage expected (jsDisplay (.num xs.length))
          data := some (.arr xs) })
  | other =>
    match jsLengthProp other with
    | .error s => .error (.typeError s)
    | .ok lenVal =>
      .error (.apiError
        { message := countMismatchMessage expected (jsDisplay lenVal)
          data := some other })

/-- The tail of `sendPushNotificationsAsync`: a failed unit of work
propagates its error, a successful one has its payload validated against
the expected ticket count. -/
def dispatchSendOutcome (expected : Nat)
    (r : Except NormError JValue × List Nat) : Except SendFailure JValue × List Nat :=
  match r.1 with
  | .error e => (.error (.apiError e), r.2)
  | .ok data => (validateTickets expected data, r.2)

/-- `sendPushNotificationsAsync` from the source, with the transport
abstracted as one `HttpResponse` per attempt (`responses n` answers the
`n`-th attempt of the retried unit of work). The concurrency limiter is
the identity on a single call. Returns the outcome together with the
backoff delays performed. -/
def sendPushNotificationsAsync (messages : List (ExpoPushMessage α))
    (responses : Nat → HttpResponse) : Except SendFailure JValue × List Nat :=
  dispatchSendOutcome (_getActualMessageCount messages)
    (promiseRetry (fun attempt => requestAsync (responses attempt))
      shouldRetry429 REQUEST_RETRY_OPTIONS)

/-- One character class test of the token regular expression: `[a-z\d]`
with the `i` flag, i.e. any ASCII letter or digit. -/
def regexTokenChar (c : Char) : Bool :=
  (('a' ≤ c) && (c ≤ 'z')) || (('A' ≤ c) && (c ≤ 'Z')) || c.isDigit

/-- Consume exactly `n` characters matching `regexTokenChar`, returning
the remaining characters. -/
def consumeGroup : Nat → List Char → Option (List Char)
  | 0, cs => some cs
  | _ + 1, [] => none
  | n + 1, c :: cs => if regexTokenChar c then consumeGroup n cs else none

/-- Consume one literal dash character after a group. -/
def expectDash : Option (List Char) → Option (List Char)
  | some (c :: cs) => if c = '-' then some cs else none
  | _ => none

/-- The anchored UUID regular expression of `isExpoPushToken`
(`8-4-4-4-12` groups separated by dashes, anchored at both ends), over a
character list. -/
def uuidMatch (cs : List Char) : Bool :=
  match expectDash (consumeGroup 8 cs) with
  | none => false
  | some cs1 =>
    match expectDash (consumeGroup 4 cs1) with
    | none => false
    | some cs2 =>
      match expectDash (consumeGroup 4 cs2) with
      | none => false
      | some cs3 =>
        match expectDash (consumeGroup 4 cs3) with
        | none => false
        | some cs4 => consumeGroup 12 cs4 == some []

/-- Models the JavaScript built-in `String.prototype.startsWith` over
character lists. -/
def listStartsWith : List Char → List Char → Bool
  | _, [] => true
  | [], _ :: _ => false
  | c :: cs, p :: ps => c = p && listStartsWith cs ps

/-- Models `token.startsWith(...)`. -/
def strStartsWith (s pat : String) : Bool :=
  listStartsWith s.data pat.data

/-- Models `token.endsWith(...)`: the pattern read backwards must lead
the string read backwards. -/
def strEndsWith (s pat : String) : Bool :=
  listStartsWith s.data.reverse pat.data.reverse

/-- `Expo.isExpoPushToken` from the source: a string that either carries
one of the two bracket forms, or matches the UUID regular expression;
false for every non-string value. -/
def isExpoPushToken (token : JValue) : Bool :=
  match token with
  | .str s =>
    ((strStartsWith s "ExponentPushToken[" || strStartsWith s "ExpoPushToken[")
        && strEndsWith s "]")
      || uuidMatch s.data
  | _ => false

/-- Hexadecimal-style character class, following the claim's words
(`groups of hexadecimal-style characters, case-insensitive`): a hex
digit, case-insensitive. Used only to compare the claim against the
source predicate. -/
def hexStyleChar (c : Char) : Bool :=
  (('a' ≤ c) && (c ≤ 'f')) || (('A' ≤ c) && (c ≤ 'F')) || c.isDigit

/-- Consume exactly `n` characters matching `hexStyleChar`. -/
def consumeHexGroup : Nat → List Char → Option (List Char)
  | 0, cs => some cs
  | _ + 1, [] => none
  | n + 1, c :: cs => if hexStyleChar c then consumeHexGroup n cs else none

/-- Modelled from the claim's words: the token predicate as the claim
states it, with the UUID groups restricted to hexadecimal-style
characters. -/
def isExpoPushTokenClaim (token : JValue) : Bool :=
  match token with
  | .str s =>
    ((strStartsWith s "ExponentPushToken[" || strStartsWith s "ExpoPushToken[")
        && strEndsWith s "]")
      || (match expectDash (consumeHexGroup 8 s.data) with
          | none => false
          | some cs1 =>
            match expectDash (consumeHexGroup 4 cs1) with
            | none => false
            | some cs2 =>
              match expectDash (consumeHexGroup 4 cs2) with
              | none => false
              | some cs3 =>
                match expectDash (consumeHexGroup 4 cs3) with
                | none => false
                | some cs4 => consumeHexGroup 12 cs4 == some [])
  | _ => false

/-- Declarative UUID shape over a string: five dash-separated groups of
lengths 8, 4, 4, 4 and 12 whose characters are ASCII letters or digits
(case-insensitive). -/
def UuidShaped (s : String) : Prop :=
  ∃ g1 g2 g3 g4 g5 : List Char,
    s.data = g1 ++ '-' :: (g2 ++ '-' :: (g3 ++ '-' :: (g4 ++ '-' :: g5))) ∧
    g1.length = 8 ∧ g2.length = 4 ∧ g3.length = 4 ∧ g4.length = 4 ∧ g5.length = 12 ∧
    (∀ c ∈ g1, regexTokenChar c) ∧ (∀ c ∈ g2, regexTokenChar c) ∧
    (∀ c ∈ g3, regexTokenChar c) ∧ (∀ c ∈ g4, regexTokenChar c) ∧
    (∀ c ∈ g5, regexTokenChar c)

/-- The flattened recipient list accounted for by a chunking state:
everything already pushed to `chunks`, followed by the open chunk. -/
def stKey (st : ChunkState α) : List String :=
  flatAll st.chunks ++ flatRecipients st.chunk

/-- The loop invariant of the outer chunking loop: the counter equals the
flattened recipient count of the open chunk and stays below the limit. -/
def ChunkInv (limit : Nat) (st : ChunkState α) : Prop :=
  st.count = (flatRecipients st.chunk).length ∧ st.count < limit

/-- The loop invariant of the inner (recipient) loop: the counter equals
the flattened recipient count of the open chunk plus the partial
recipient list, and stays below the limit. -/
def RecipInv (limit : Nat) (s : List String × ChunkState α) : Prop :=
  s.2.count = (flatRecipients s.2.chunk).length + s.1.length ∧ s.2.count < limit

/-- Every chunk already pushed has flattened recipient count at most the
limit. -/
def Bounded (limit : Nat) (st : ChunkState α) : Prop :=
  ∀ b ∈ st.chunks, (flatRecipients b).length ≤ limit

/-- Every message stored anywhere in the chunking state satisfies `Q`. -/
def StateSat (Q : ExpoPushMessage α → Prop) (st : ChunkState α) : Prop :=
  (∀ f ∈ st.chunk, Q f) ∧ (∀ b ∈ st.chunks, ∀ f ∈ b, Q f)

@[simp] theorem tokens_single (t : String) : Recipient.tokens (.single t) = [t] := rfl

@[simp] theorem tokens_list (ts : List String) : Recipient.tokens (.list ts) = ts := rfl

@[simp] theorem flatRecipients_nil : flatRecipients ([] : List (ExpoPushMessage α)) = [] := rfl

@[simp] theorem flatRecipients_cons (m : ExpoPushMessage α) (l : List (ExpoPushMessage α)) :
    flatRecipients (m :: l) = m.«to».tokens ++ flatRecipients l := rfl

@[simp] theorem flatRecipients_append (a b : List (ExpoPushMessage α)) :
    flatRecipients (a ++ b) = flatRecipients a ++ flatRecipients b := by
  simp [flatRecipients]

@[simp] theorem flatAll_nil : flatAll ([] : List (List (ExpoPushMessage α))) = [] := rfl

@[simp] theorem flatAll_cons (c : List (ExpoPushMessage α)) (l : List (List (ExpoPushMessage α))) :
    flatAll (c :: l) = flatRecipients c ++ flatAll l := rfl

@[simp] theorem flatAll_append (a b : List (List (ExpoPushMessage α))) :
    flatAll (a ++ b) = flatAll a ++ flatAll b := by
  simp [flatAll]

theorem flatAll_length (l : List (List (ExpoPushMessage α))) :
    (flatAll l).length = (l.map (fun b => (flatRecipients b).length)).sum := by
  induction l with
  | nil => rfl
  | cons c l ih => simp [ih]

theorem stKey_recipStep (limit : Nat) (message : ExpoPushMessage α)
    (s : List String × ChunkState α) (r : String) :
    stKey (chunkRecipientStep limit message s r).2 ++ (chunkRecipientStep limit message s r).1
      = stKey s.2 ++ s.1 ++ [r] := by
  unfold chunkRecipientStep
  split
  · simp [stKey]
  · simp [stKey]

theorem stKey_recipFold (limit : Nat) (message : ExpoPushMessage α) :
    ∀ (ts : List String) (s : List String × ChunkState α),
      stKey (ts.foldl (chunkRecipientStep limit message) s).2
          ++ (ts.foldl (chunkRecipientStep limit message) s).1
        = stKey s.2 ++ s.1 ++ ts := by
  intro ts
  induction ts with
  | nil => intro s; simp
  | cons r ts ih =>
    intro s
    rw [List.foldl_cons, ih, stKey_recipStep]
    simp

theorem stKey_chunkListFlush (message : ExpoPushMessage α)
    (s : List String × ChunkState α) :
    stKey (chunkListFlush message s) = stKey s.2 ++ s.1 := by
  unfold chunkListFlush
  split
  · simp [stKey]
  · next h =>
    have : s.1 = [] := List.length_eq_zero.mp (by omega)
    simp [this]

theorem stKey_chunkListMessage (limit : Nat) (message : ExpoPushMessage α)
    (ts : List String) (st : ChunkState α) :
    stKey (chunkListMessage limit message ts st) = stKey st ++ ts := by
  unfold chunkListMessage
  rw [stKey_chunkListFlush, stKey_recipFold]
  simp

theorem stKey_chunkClose (limit : Nat) (st : ChunkState α) :
    stKey (chunkClose limit st) = stKey st := by
  unfold chunkClose
  split
  · simp [stKey]
  · rfl

theorem stKey_chunkStep (limit : Nat) (st : ChunkState α) (message : ExpoPushMessage α) :
    stKey (chunkStep limit st message) = stKey st ++ message.«to».tokens := by
  unfold chunkStep
  rw [stKey_chunkClose]
  cases h : message.«to» with
  | list ts => rw [stKey_chunkListMessage]; simp
  | single t => simp [stKey, h]

theorem stKey_chunkFold (limit : Nat) :
    ∀ (messages : List (ExpoPushMessage α)) (st : ChunkState α),
      stKey (messages.foldl (chunkStep limit) st) = stKey st ++ flatRecipients messages := by
  intro messages
  induction messages with
  | nil => intro st; simp
  | cons m messages ih =>
    intro st
    rw [List.foldl_cons, ih, stKey_chunkStep]
    simp

theorem flatAll_chunkFinalize (st : ChunkState α)
    (h : st.count = (flatRecipients st.chunk).length) :
    flatAll (chunkFinalize st) = stKey st := by
  unfold chunkFinalize
  split
  · simp [stKey]
  · next hc =>
    have h0 : (flatRecipients st.chunk).length = 0 := by omega
    have : flatRecipients st.chunk = [] := List.length_eq_zero.mp h0
    simp [stKey, this]

theorem recipStep_invBounded (limit : Nat) (message : ExpoPushMessage α)
    (s : List String × ChunkState α) (r : String) (hl : 0 < limit)
    (h : RecipInv limit s) (hb : Bounded limit s.2) :
    RecipInv limit (chunkRecipientStep limit message s r) ∧
      Bounded limit (chunkRecipientStep limit message s r).2 := by
  obtain ⟨hcount, hlt⟩ := h
  unfold chunkRecipientStep
  split
  · next hcap =>
    refine ⟨⟨by simp, hl⟩, ?_⟩
    intro b hbmem
    simp only [List.mem_append, List.mem_singleton] at hbmem
    rcases hbmem with hold | hnew
    · exact hb b hold
    · subst hnew
      simp only [flatRecipients_append, flatRecipients_cons, flatRecipients_nil,
        tokens_list, List.length_append, List.length_nil, List.length_cons,
        List.append_nil]
      omega
  · next hcap =>
    refine ⟨⟨?_, ?_⟩, hb⟩
    · show s.2.count + 1 = (flatRecipients s.2.chunk).length + (s.1 ++ [r]).length
      simp only [List.length_append, List.length_cons, List.length_nil]
      omega
    · show s.2.count + 1 < limit
      omega

theorem recipFold_invBounded (limit : Nat) (message : ExpoPushMessage α) (hl : 0 < limit) :
    ∀ (ts : List String) (s : List String × ChunkState α),
      RecipInv limit s → Bounded limit s.2 →
      RecipInv limit (ts.foldl (chunkRecipientStep limit message) s) ∧
        Bounded limit (ts.foldl (chunkRecipientStep limit message) s).2 := by
  intro ts
  induction ts with
  | nil => intro s h hb; exact ⟨h, hb⟩
  | cons r ts ih =>
    intro s h hb
    obtain ⟨h', hb'⟩ := recipStep_invBounded limit message s r hl h hb
    rw [List.foldl_cons]
    exact ih _ h' hb'

theorem chunkListFlush_inv (limit : Nat) (message : ExpoPushMessage α)
    (s : List String × ChunkState α) (h : RecipInv limit s) :
    ChunkInv limit (chunkListFlush message s) ∧
      (chunkListFlush message s).chunks = s.2.chunks := by
  obtain ⟨hcount, hlt⟩ := h
  unfold chunkListFlush
  split
  · exact ⟨⟨by simp [hcount], hlt⟩, rfl⟩
  · next hz =>
    have : s.1.length = 0 := by omega
    exact ⟨⟨by omega, hlt⟩, rfl⟩

theorem chunkClose_invBounded (limit : Nat) (st : ChunkState α) (hl : 0 < limit)
    (h1 : st.count = (flatRecipients st.chunk).length) (h2 : st.count ≤ limit)
    (hb : Bounded limit st) :
    ChunkInv limit (chunkClose limit st) ∧ Bounded limit (chunkClose limit st) := by
  unfold chunkClose
  split
  · next hcap =>
    refine ⟨⟨rfl, hl⟩, ?_⟩
    intro b hbmem
    simp only [List.mem_append, List.mem_singleton] at hbmem
    rcases hbmem with hold | hnew
    · exact hb b hold
    · subst hnew; omega
  · next hcap => exact ⟨⟨h1, by omega⟩, hb⟩

theorem chunkStep_invBounded (limit : Nat) (st : ChunkState α)
    (message : ExpoPushMessage α) (hl : 0 < limit)
    (h : ChunkInv limit st) (hb : Bounded limit st) :
    ChunkInv limit (chunkStep limit st message) ∧ Bounded limit (chunkStep limit st message) := by
  obtain ⟨hcount, hlt⟩ := h
  unfold chunkStep
  cases hto : message.«to» with
  | list ts =>
    dsimp only
    have hr : RecipInv limit (([], st) : List String × ChunkState α) := ⟨by simp [hcount], hlt⟩
    obtain ⟨hr', hb'⟩ := recipFold_invBounded limit message hl ts ([], st) hr hb
    obtain ⟨⟨hc1, hc2⟩, hchunks⟩ :=
      chunkListFlush_inv limit message _ hr'
    unfold chunkListMessage
    refine chunkClose_invBounded limit _ hl hc1 (by omega) ?_
    intro b hmem
    rw [hchunks] at hmem
    exact hb' b hmem
  | single t =>
    dsimp only
    refine chunkClose_invBounded limit _ hl ?_ ?_ hb
    · show st.count + 1 = (flatRecipients (st.chunk ++ [message])).length
      simp [hcount, hto]
    · show st.count + 1 ≤ limit
      omega

theorem chunkFold_invBounded (limit : Nat) (hl : 0 < limit) :
    ∀ (messages : List (ExpoPushMessage α)) (st : ChunkState α),
      ChunkInv limit st → Bounded limit st →
      ChunkInv limit (messages.foldl (chunkStep limit) st) ∧
        Bounded limit (messages.foldl (chunkStep limit) st) := by
  intro messages
  induction messages with
  | nil => intro st h hb; exact ⟨h, hb⟩
  | cons m messages ih =>
    intro st h hb
    obtain ⟨h', hb'⟩ := chunkStep_invBounded limit st m hl h hb
    rw [List.foldl_cons]
    exact ih _ h' hb'

theorem chunkFinalize_bounded (limit : Nat) (st : ChunkState α)
    (h : ChunkInv limit st) (hb : Bounded limit st) :
    ∀ b ∈ chunkFinalize st, (flatRecipients b).length ≤ limit := by
  obtain ⟨hcount, hlt⟩ := h
  unfold chunkFinalize
  split
  · intro b hbmem
    simp only [List.mem_append, List.mem_singleton] at hbmem
    rcases hbmem with hold | hnew
    · exact hb b hold
    · subst hnew; omega
  · exact hb

theorem recipStep_sat (limit : Nat) (message : ExpoPushMessage α)
    (Q : ExpoPushMessage α → Prop) (s : List String × ChunkState α) (r : String)
    (hm : ∀ ts', Q { message with «to» := Recipient.list ts' })
    (h : StateSat Q s.2) : StateSat Q (chunkRecipientStep limit message s r).2 := by
  obtain ⟨hchunk, hchunks⟩ := h
  unfold chunkRecipientStep
  split
  · refine ⟨by simp, ?_⟩
    intro b hbmem f hf
    simp only [List.mem_append, List.mem_singleton] at hbmem
    rcases hbmem with hold | hnew
    · exact hchunks b hold f hf
    · subst hnew
      simp only [List.mem_append, List.mem_singleton] at hf
      rcases hf with hf | hf
      · exact hchunk f hf
      · subst hf; exact hm _
  · exact ⟨hchunk, hchunks⟩

theorem recipFold_sat (limit : Nat) (message : ExpoPushMessage α)
    (Q : ExpoPushMessage α → Prop)
    (hm : ∀ ts', Q { message with «to» := Recipient.list ts' }) :
    ∀ (ts : List String) (s : List String × ChunkState α),
      StateSat Q s.2 → StateSat Q (ts.foldl (chunkRecipientStep limit message) s).2 := by
  intro ts
  induction ts with
  | nil => intro s h; exact h
  | cons r ts ih =>
    intro s h
    rw [List.foldl_cons]
    exact ih _ (recipStep_sat limit message Q s r hm h)

theorem chunkListFlush_sat (message : ExpoPushMessage α)
    (Q : ExpoPushMessage α → Prop) (s : List String × ChunkState α)
    (hm : ∀ ts', Q { message with «to» := Recipient.list ts' })
    (h : StateSat Q s.2) : StateSat Q (chunkListFlush message s) := by
  obtain ⟨hchunk, hchunks⟩ := h
  unfold chunkListFlush
  split
  · refine ⟨?_, hchunks⟩
    intro f hf
    simp only [List.mem_append, List.mem_singleton] at hf
    rcases hf with hf | hf
    · exact hchunk f hf
    · subst hf; exact hm _
  · exact ⟨hchunk, hchunks⟩

theorem chunkClose_sat (limit : Nat) (Q : ExpoPushMessage α → Prop) (st : ChunkState α)
    (h : StateSat Q st) : StateSat Q (chunkClose limit st) := by
  obtain ⟨hchunk, hchunks⟩ := h
  unfold chunkClose
  split
  · refine ⟨by simp, ?_⟩
    intro b hbmem f hf
    simp only [List.mem_append, List.mem_singleton] at hbmem
    rcases hbmem with hold | hnew
    · exact hchunks b hold f hf
    · subst hnew; exact hchunk f hf
  · exact ⟨hchunk, hchunks⟩

theorem chunkStep_sat (limit : Nat) (st : ChunkState α) (message : ExpoPushMessage α)
    (Q : ExpoPushMessage α → Prop)
    (hm1 : Q message)
    (hm2 : ∀ ts, message.«to» = Recipient.list ts →
      ∀ ts', Q { message with «to» := Recipient.list ts' })
    (h : StateSat Q st) : StateSat Q (chunkStep limit st message) := by
  unfold chunkStep
  cases hto : message.«to» with
  | list ts =>
    dsimp only
    refine chunkClose_sat limit Q _ ?_
    unfold chunkListMessage
    exact chunkListFlush_sat message Q _ (hm2 ts hto) (recipFold_sat limit message Q (hm2 ts hto) ts ([], st) h)
  | single t =>
    dsimp only
    refine chunkClose_sat limit Q _ ?_
    obtain ⟨hchunk, hchunks⟩ := h
    refine ⟨?_, hchunks⟩
    intro f hf
    simp only [List.mem_append, List.mem_singleton] at hf
    rcases hf with hf | hf
    · exact hchunk f hf
    · subst hf; exact hm1

theorem chunkFold_sat (limit : Nat) (Q : ExpoPushMessage α → Prop) :
    ∀ (messages : List (ExpoPushMessage α)) (st : ChunkState α),
      (∀ m ∈ messages, Q m ∧ ∀ ts, m.«to» = Recipient.list ts →
        ∀ ts', Q { m with «to» := Recipient.list ts' }) →
      StateSat Q st → StateSat Q (messages.foldl (chunkStep limit) st) := by
  intro messages
  induction messages with
  | nil => intro st _ h; exact h
  | cons m messages ih =>
    intro st hall h
    rw [List.foldl_cons]
    have hm := hall m (List.mem_cons_self m messages)
    exact ih _ (fun m' hm' => hall m' (List.mem_cons_of_mem m hm'))
      (chunkStep_sat limit st m Q hm.1 hm.2 h)

theorem chunkFinalize_sat (Q : ExpoPushMessage α → Prop) (st : ChunkState α)
    (h : StateSat Q st) : ∀ b ∈ chunkFinalize st, ∀ f ∈ b, Q f := by
  obtain ⟨hchunk, hchunks⟩ := h
  unfold chunkFinalize
  split
  · intro b hbmem
    simp only [List.mem_append, List.mem_singleton] at hbmem
    rcases hbmem with hold | hnew
    · exact hchunks b hold
    · subst hnew; exact hchunk
  · exact hchunks

theorem chunkStep_emptyList (limit : Nat) (st : ChunkState α) (message : ExpoPushMessage α)
    (hto : message.«to» = Recipient.list []) (hlt : st.count < limit) :
    chunkStep limit st message = st := by
  unfold chunkStep
  rw [hto]
  dsimp only
  unfold chunkListMessage chunkListFlush chunkClose
  simp [Nat.not_le.mpr hlt]

theorem getActualMessageCount_go (messages : List (ExpoPushMessage α)) :
    ∀ n : Nat,
      messages.foldl
        (fun total message =>
          match message.«to» with
          | .list ts => total + ts.length
          | .single _ => total + 1)
        n = n + (flatRecipients messages).length := by
  induction messages with
  | nil => intro n; simp
  | cons m messages ih =>
    intro n
    rw [List.foldl_cons, ih]
    cases hto : m.«to» with
    | list ts => simp [hto]; omega
    | single t => simp [hto]; omega

theorem getActualMessageCount_eq (messages : List (ExpoPushMessage α)) :
    _getActualMessageCount messages = (flatRecipients messages).length := by
  unfold _getActualMessageCount
  rw [getActualMessageCount_go]
  omega

theorem chunk_initial_inv :
    ChunkInv PUSH_NOTIFICATION_CHUNK_LIMIT (⟨[], [], 0⟩ : ChunkState α) :=
  ⟨rfl, by show (0 : Nat) < PUSH_NOTIFICATION_CHUNK_LIMIT; norm_num [PUSH_NOTIFICATION_CHUNK_LIMIT]⟩

theorem chunk_initial_bounded :
    Bounded PUSH_NOTIFICATION_CHUNK_LIMIT (⟨[], [], 0⟩ : ChunkState α) := by
  intro b hb
  simp at hb

theorem chunk_final_inv (messages : List (ExpoPushMessage α)) :
    ChunkInv PUSH_NOTIFICATION_CHUNK_LIMIT
        (messages.foldl (chunkStep PUSH_NOTIFICATION_CHUNK_LIMIT) ⟨[], [], 0⟩) ∧
      Bounded PUSH_NOTIFICATION_CHUNK_LIMIT
        (messages.foldl (chunkStep PUSH_NOTIFICATION_CHUNK_LIMIT) ⟨[], [], 0⟩) :=
  chunkFold_invBounded PUSH_NOTIFICATION_CHUNK_LIMIT (by decide) messages ⟨[], [], 0⟩
    chunk_initial_inv chunk_initial_bounded

theorem chunk_flatAll (messages : List (ExpoPushMessage α)) :
    flatAll (chunkPushNotifications messages) = flatRecipients messages := by
  unfold chunkPushNotifications
  rw [flatAll_chunkFinalize _ (chunk_final_inv messages).1.1, stKey_chunkFold]
  simp [stKey]

theorem chunk_bounded (messages : List (ExpoPushMessage α)) :
    ∀ b ∈ chunkPushNotifications messages,
      (flatRecipients b).length ≤ PUSH_NOTIFICATION_CHUNK_LIMIT := by
  unfold chunkPushNotifications
  exact chunkFinalize_bounded PUSH_NOTIFICATION_CHUNK_LIMIT _
    (chunk_final_inv messages).1 (chunk_final_inv messages).2

theorem chunk_sat (messages : List (ExpoPushMessage α)) (Q : ExpoPushMessage α → Prop)
    (hall : ∀ m ∈ messages, Q m ∧ ∀ ts, m.«to» = Recipient.list ts →
      ∀ ts', Q { m with «to» := Recipient.list ts' }) :
    ∀ b ∈ chunkPushNotifications messages, ∀ f ∈ b, Q f := by
  unfold chunkPushNotifications
  refine chunkFinalize_sat Q _ (chunkFold_sat PUSH_NOTIFICATION_CHUNK_LIMIT Q messages ⟨[], [], 0⟩ hall ?_)
  exact ⟨by intro f hf; simp at hf, by intro b hb; simp at hb⟩

/-- C1: for every input message list, the flattened recipient count summed
across all batches produced by `chunkPushNotifications` equals the
flattened recipient count of the input (a list-valued recipient field
counts by its length, a scalar recipient as 1), and concatenating the
batches' recipients in order reconstructs the original recipient order. -/
theorem chunkPushNotifications_conserves_recipients (messages : List (ExpoPushMessage α)) :
    flatAll (chunkPushNotifications messages) = flatRecipients messages ∧
    ((chunkPushNotifications messages).map (fun b => (flatRecipients b).length)).sum
      = (flatRecipients messages).length := by
  refine ⟨chunk_flatAll messages, ?_⟩
  rw [← flatAll_length, chunk_flatAll messages]

/-- C4: no batch produced by `chunkPushNotifications` has a flattened
recipient count exceeding the chunk limit of 100; and a single message
whose own recipient list exceeds the limit is split across at least two
batches and never dropped (all of its recipients appear, in order). -/
theorem chunkPushNotifications_respects_limit {α : Type} :
    (∀ (messages : List (ExpoPushMessage α)), ∀ b ∈ chunkPushNotifications messages,
        (flatRecipients b).length ≤ PUSH_NOTIFICATION_CHUNK_LIMIT) ∧
    (∀ (m : ExpoPushMessage α) (ts : List String), m.«to» = Recipient.list ts →
        PUSH_NOTIFICATION_CHUNK_LIMIT < ts.length →
        2 ≤ (chunkPushNotifications [m]).length ∧
          flatAll (chunkPushNotifications [m]) = ts) := by
  refine ⟨fun messages => chunk_bounded messages, ?_⟩
  intro m ts hto hlen
  have hflat : flatAll (chunkPushNotifications [m]) = ts := by
    rw [chunk_flatAll [m]]
    simp [hto]
  refine ⟨?_, hflat⟩
  cases hcs : chunkPushNotifications [m] with
  | nil =>
    rw [hcs] at hflat
    simp at hflat
    subst hflat
    simp only [List.length_nil] at hlen
    omega
  | cons b1 tl =>
    cases tl with
    | nil =>
      have hb1 := chunk_bounded [m] b1 (by rw [hcs]; exact List.mem_singleton_self b1)
      rw [hcs] at hflat
      simp at hflat
      have : (flatRecipients b1).length = ts.length := by rw [hflat]
      omega
    | cons b2 tl2 => simp

/-- C4 witness: a concrete small input stays within the limit, and a
concrete 101-recipient message is split into at least two batches with
all recipients preserved. -/
theorem chunkPushNotifications_respects_limit_witness :
    ((flatRecipients [({ «to» := Recipient.single "a", payload := () } : ExpoPushMessage Unit)]).length
        ≤ PUSH_NOTIFICATION_CHUNK_LIMIT) ∧
    (2 ≤ (chunkPushNotifications
          [({ «to» := Recipient.list (List.replicate 101 "t"), payload := () } : ExpoPushMessage Unit)]).length ∧
      flatAll (chunkPushNotifications
          [({ «to» := Recipient.list (List.replicate 101 "t"), payload := () } : ExpoPushMessage Unit)])
        = List.replicate 101 "t") :=
  ⟨chunkPushNotifications_respects_limit.1
      [{ «to» := Recipient.single "a", payload := () }]
      [{ «to» := Recipient.single "a", payload := () }] (by decide),
    chunkPushNotifications_respects_limit.2
      { «to» := Recipient.list (List.replicate 101 "t"), payload := () }
      (List.replicate 101 "t") rfl (by decide)⟩

/-- C7: every message appearing in a batch produced by
`chunkPushNotifications` is either an input message passed through
unchanged or a copy of an input list-recipient message that differs only
in its recipient field; in particular every fragment of a message whose
recipient list exceeds the chunk limit keeps all non-recipient fields
(the opaque payload) unchanged and carries a list-valued recipient
field. -/
theorem chunkPushNotifications_fragments {α : Type} :
    (∀ (messages : List (ExpoPushMessage α)), ∀ b ∈ chunkPushNotifications messages, ∀ f ∈ b,
        ∃ m ∈ messages, f.payload = m.payload ∧
          (f = m ∨ ∃ ts ts', m.«to» = Recipient.list ts ∧ f.«to» = Recipient.list ts')) ∧
    (∀ (m : ExpoPushMessage α) (ts : List String), m.«to» = Recipient.list ts →
        PUSH_NOTIFICATION_CHUNK_LIMIT < ts.length →
        ∀ b ∈ chunkPushNotifications [m], ∀ f ∈ b,
          f.payload = m.payload ∧ ∃ ts', f.«to» = Recipient.list ts') := by
  constructor
  · intro messages
    refine chunk_sat messages
      (fun f => ∃ m ∈ messages, f.payload = m.payload ∧
        (f = m ∨ ∃ ts ts', m.«to» = Recipient.list ts ∧ f.«to» = Recipient.list ts')) ?_
    intro m hm
    exact ⟨⟨m, hm, rfl, Or.inl rfl⟩,
      fun ts hto ts' => ⟨m, hm, rfl, Or.inr ⟨ts, ts', hto, rfl⟩⟩⟩
  · intro m ts hto _
    refine chunk_sat [m]
      (fun f => f.payload = m.payload ∧ ∃ ts', f.«to» = Recipient.list ts') ?_
    intro m' hm'
    rw [List.mem_singleton] at hm'
    subst hm'
    exact ⟨⟨rfl, ts, hto⟩, fun ts0 hto0 ts' => ⟨rfl, ts', rfl⟩⟩

set_option maxRecDepth 10000 in
/-- C7 witness: instantiation at a passthrough message and at a concrete
101-recipient message. -/
theorem chunkPushNotifications_fragments_witness :
    (∃ m ∈ [({ «to» := Recipient.single "a", payload := () } : ExpoPushMessage Unit)],
        ({ «to» := Recipient.single "a", payload := () } : ExpoPushMessage Unit).payload = m.payload ∧
        (({ «to» := Recipient.single "a", payload := () } : ExpoPushMessage Unit) = m ∨
          ∃ ts ts', m.«to» = Recipient.list ts ∧
            ({ «to» := Recipient.single "a", payload := () } : ExpoPushMessage Unit).«to» = Recipient.list ts')) ∧
    (({ «to» := Recipient.list ["t"], payload := () } : ExpoPushMessage Unit).payload
          = ({ «to» := Recipient.list (List.replicate 101 "t"), payload := () } : ExpoPushMessage Unit).payload ∧
        ∃ ts', ({ «to» := Recipient.list ["t"], payload := () } : ExpoPushMessage Unit).«to» = Recipient.list ts') :=
  ⟨chunkPushNotifications_fragments.1
      [{ «to» := Recipient.single "a", payload := () }]
      [{ «to» := Recipient.single "a", payload := () }] (by decide)
      { «to» := Recipient.single "a", payload := () } (by decide),
    chunkPushNotifications_fragments.2
      { «to» := Recipient.list (List.replicate 101 "t"), payload := () }
      (List.replicate 101 "t") rfl (by decide)
      [{ «to» := Recipient.list ["t"], payload := () }] (by decide)
      { «to» := Recipient.list ["t"], payload := () } (by decide)⟩

/-- C10: a message whose recipient field is the empty list contributes no
fragment to any batch (`chunkPushNotifications` yields the same chunks as
if the message were absent) and contributes 0 to
`_getActualMessageCount`, so the recipient-count conservation between
input and chunked output is unaffected. -/
theorem chunkPushNotifications_drops_empty_recipient (pre post : List (ExpoPushMessage α))
    (m : ExpoPushMessage α) (hto : m.«to» = Recipient.list []) :
    chunkPushNotifications (pre ++ m :: post) = chunkPushNotifications (pre ++ post) ∧
    _getActualMessageCount (pre ++ m :: post) = _getActualMessageCount (pre ++ post) := by
  constructor
  · unfold chunkPushNotifications
    rw [List.foldl_append, List.foldl_append, List.foldl_cons,
      chunkStep_emptyList PUSH_NOTIFICATION_CHUNK_LIMIT _ m hto (chunk_final_inv pre).1.2]
  · rw [getActualMessageCount_eq, getActualMessageCount_eq]
    simp [hto]

/-- C10 witness: instantiation at a concrete two-message list whose second
message has an empty recipient list. -/
theorem chunkPushNotifications_drops_empty_recipient_witness :
    chunkPushNotifications
        ([{ «to» := Recipient.single "a", payload := () }] ++
          ({ «to» := Recipient.list [], payload := () } : ExpoPushMessage Unit) :: []) =
      chunkPushNotifications
        ([{ «to» := Recipient.single "a", payload := () }] ++ ([] : List (ExpoPushMessage Unit))) ∧
    _getActualMessageCount
        ([{ «to» := Recipient.single "a", payload := () }] ++
          ({ «to» := Recipient.list [], payload := () } : ExpoPushMessage Unit) :: []) =
      _getActualMessageCount
        ([{ «to» := Recipient.single "a", payload := () }] ++ ([] : List (ExpoPushMessage Unit))) :=
  chunkPushNotifications_drops_empty_recipient
    [{ «to» := Recipient.single "a", payload := () }] []
    { «to» := Recipient.list [], payload := () } rfl

/-- C5: for every response with status 200 whose parsed body contains a
non-empty errors list, `requestAsync` fails with an error built from the
first entry (message, code, details, stack), with the remaining entries
attached in server-reported order as the `others` sibling list on the
primary error, and with the HTTP status code attached; the first entry is
always the primary error. -/
theorem requestAsync_200_errors_first_is_primary (text : String) (first : ApiResultError)
    (rest : List ApiResultError) (d : JValue) :
    ∃ err : NormError,
      requestAsync ⟨200, .parsed text ⟨some (first :: rest), d⟩⟩ = .error err ∧
      err.message = first.message ∧
      err.code = some first.code ∧
      err.details = (if jsNonNullish first.details then some first.details else none) ∧
      err.serverStack = first.stack ∧
      err.others = (if rest.length ≠ 0 then some (rest.map getErrorFromResultError) else none) ∧
      err.statusCode = some 200 :=
  ⟨getErrorFromResult 200 ⟨some (first :: rest), d⟩, rfl, rfl, rfl, rfl, rfl, rfl, rfl⟩

/-- C6 (amended): for every response with a non-200 status, normalization
first attempts to parse the body as the error envelope; on parse failure
the resulting error is exactly the raw-text error built from the
response text and status code; when the body parses to a JSON object
lacking a non-empty errors list, or to a non-object value other than
`null`, the result is that same raw-text error (with the parsed result
attached as diagnostic `errorData`); when the body parses to JSON `null`
the call instead fails with the runtime `TypeError` thrown while reading
the `errors` property of `null`; when the envelope carries a non-empty
errors list it is normalized from the envelope instead. -/
theorem requestAsync_non200_fallback (status : Nat) (h : status ≠ 200) :
    (∀ text, requestAsync ⟨status, .unparsable text⟩
        = .error (getTextResponseError status text)) ∧
    (∀ text (result : ApiResult), result.errors = none ∨ result.errors = some [] →
        requestAsync ⟨status, .parsed text result⟩
          = .error { getTextResponseError status text with
              errorData := some (.envelope result) }) ∧
    (∀ text (value : JValue), jsNonNullish value = true → isJsObjectValue value = false →
        requestAsync ⟨status, .parsedValue text value⟩
          = .error { getTextResponseError status text with
              errorData := some (.value value) }) ∧
    (∀ text, requestAsync ⟨status, .parsedValue text .null⟩
        = .error (errorsAccessTypeError .null)) ∧
    (∀ text (first : ApiResultError) (rest : List ApiResultError) (d : JValue),
        requestAsync ⟨status, .parsed text ⟨some (first :: rest), d⟩⟩
          = .error (getErrorFromResult status ⟨some (first :: rest), d⟩)) := by
  refine ⟨?_, ?_, ?_, ?_, ?_⟩
  · intro text
    unfold requestAsync
    rw [if_pos h]
    rfl
  · intro text result hres
    unfold requestAsync
    rw [if_pos h]
    unfold parseErrorResponseAsync
    dsimp only
    rcases hres with hres | hres <;> rw [hres]
  · intro text value hv _
    unfold requestAsync
    rw [if_pos h]
    unfold parseErrorResponseAsync
    dsimp only
    rw [if_pos hv]
  · intro text
    unfold requestAsync
    rw [if_pos h]
    rfl
  · intro text first rest d
    unfold requestAsync
    rw [if_pos h]
    rfl

/-- C6 witness: instantiation at a 500 response with an unparsable body,
with a body parsing to the number 5, and with a body parsing to `null`. -/
theorem requestAsync_non200_fallback_witness :
    requestAsync ⟨500, .unparsable "oops"⟩ = .error (getTextResponseError 500 "oops") ∧
    requestAsync ⟨500, .parsedValue "5" (.num 5)⟩ =
      .error { getTextResponseError 500 "5" with errorData := some (.value (.num 5)) } ∧
    requestAsync ⟨500, .parsedValue "null" .null⟩ = .error (errorsAccessTypeError .null) :=
  ⟨(requestAsync_non200_fallback 500 (by norm_num)).1 "oops",
    (requestAsync_non200_fallback 500 (by norm_num)).2.2.1 "5" (.num 5) rfl rfl,
    (requestAsync_non200_fallback 500 (by norm_num)).2.2.2.1 "null"⟩

/-- C6 counterexample: a non-200 response whose body is the four
characters `null` parses successfully, so the raw-text fallback is not
taken; the `!result.errors` check then throws a `TypeError` while
reading a property of `null`, so the resulting failure is not the error
built from the raw response text and the status code that the claim
asserts. -/
theorem requestAsync_non200_fallback_cex :
    requestAsync ⟨500, .parsedValue "null" .null⟩
      = .error (errorsAccessTypeError .null) ∧
    requestAsync ⟨500, .parsedValue "null" .null⟩
      ≠ .error (getTextResponseError 500 "null") := by
  constructor
  · rfl
  · intro hcontra
    rw [show requestAsync ⟨500, .parsedValue "null" .null⟩
        = .error (errorsAccessTypeError .null) from rfl] at hcontra
    have h1 := Except.error.inj hcontra
    have h2 := congrArg NormError.statusCode h1
    simp [errorsAccessTypeError, getTextResponseError] at h2

theorem promiseRetryGo_ok (f : Nat → Except NormError JValue) (sr : NormError → Bool)
    (fa mi remaining attempt : Nat) (v : JValue) (h : f attempt = .ok v) :
    promiseRetryGo f sr fa mi remaining attempt = (.ok v, []) := by
  cases remaining with
  | zero => unfold promiseRetryGo; rw [h]
  | succ n => unfold promiseRetryGo; rw [h]

theorem promiseRetryGo_error_noRetry (f : Nat → Except NormError JValue) (sr : NormError → Bool)
    (fa mi remaining attempt : Nat) (e : NormError)
    (h : f attempt = .error e) (hsr : sr e = false) :
    promiseRetryGo f sr fa mi remaining attempt = (.error e, []) := by
  cases remaining with
  | zero => unfold promiseRetryGo; rw [h]
  | succ n => unfold promiseRetryGo; rw [h]; dsimp only; rw [hsr]; rfl

theorem promiseRetryGo_error_retry (f : Nat → Except NormError JValue) (sr : NormError → Bool)
    (fa mi remaining attempt : Nat) (e : NormError)
    (h : f attempt = .error e) (hsr : sr e = true) :
    promiseRetryGo f sr fa mi (remaining + 1) attempt =
      ((promiseRetryGo f sr fa mi remaining (attempt + 1)).1,
        mi * fa ^ attempt :: (promiseRetryGo f sr fa mi remaining (attempt + 1)).2) := by
  conv_lhs => unfold promiseRetryGo
  rw [h]
  dsimp only
  rw [hsr]
  rfl

theorem promiseRetryGo_zero (f : Nat → Except NormError JValue) (sr : NormError → Bool)
    (fa mi attempt : Nat) :
    promiseRetryGo f sr fa mi 0 attempt = (f attempt, []) := by
  unfold promiseRetryGo
  rfl

theorem promiseRetry_two_429 (f : Nat → Except NormError JValue) (e0 e1 e2 : NormError)
    (h0 : f 0 = .error e0) (hs0 : e0.statusCode = some 429)
    (h1 : f 1 = .error e1) (hs1 : e1.statusCode = some 429)
    (h2 : f 2 = .error e2) :
    promiseRetry f shouldRetry429 REQUEST_RETRY_OPTIONS = (.error e2, [1000, 2000]) := by
  have hb0 : shouldRetry429 e0 = true := by simp [shouldRetry429, hs0]
  have hb1 : shouldRetry429 e1 = true := by simp [shouldRetry429, hs1]
  show promiseRetryGo f shouldRetry429 2 1000 2 0 = (.error e2, [1000, 2000])
  rw [promiseRetryGo_error_retry f shouldRetry429 2 1000 1 0 e0 h0 hb0,
    promiseRetryGo_error_retry f shouldRetry429 2 1000 0 1 e1 h1 hb1,
    promiseRetryGo_zero, h2]
  norm_num

theorem promiseRetry_no_retry (f : Nat → Except NormError JValue) (e0 : NormError)
    (h0 : f 0 = .error e0) (hs : e0.statusCode ≠ some 429) :
    promiseRetry f shouldRetry429 REQUEST_RETRY_OPTIONS = (.error e0, []) := by
  have hb : shouldRetry429 e0 = false := by
    simp only [shouldRetry429]
    exact beq_eq_false_iff_ne.mpr hs
  exact promiseRetryGo_error_noRetry f shouldRetry429 _ _ _ _ e0 h0 hb

/-- C3: in `sendPushNotificationsAsync`, a unit of work that fails with a
normalized error whose status code is 429 is retried up to 2 times with
exponential backoff delays of 1000ms then 2000ms (base 1000ms, factor 2),
after which the last error propagates; a failure with any other status
code is never retried and propagates immediately with no delay. -/
theorem sendPushNotificationsAsync_retry_policy (messages : List (ExpoPushMessage α))
    (responses : Nat → HttpResponse) (e0 e1 e2 : NormError) :
    (requestAsync (responses 0) = .error e0 → e0.statusCode = some 429 →
      requestAsync (responses 1) = .error e1 → e1.statusCode = some 429 →
      requestAsync (responses 2) = .error e2 →
      sendPushNotificationsAsync messages responses = (.error (.apiError e2), [1000, 2000])) ∧
    (requestAsync (responses 0) = .error e0 → e0.statusCode ≠ some 429 →
      sendPushNotificationsAsync messages responses = (.error (.apiError e0), [])) := by
  constructor
  · intro h0 hs0 h1 hs1 h2
    unfold sendPushNotificationsAsync
    rw [promiseRetry_two_429 (fun attempt => requestAsync (responses attempt)) e0 e1 e2
      h0 hs0 h1 hs1 h2]
    rfl
  · intro h0 hs0
    unfold sendPushNotificationsAsync
    rw [promiseRetry_no_retry (fun attempt => requestAsync (responses attempt)) e0 h0 hs0]
    rfl

/-- C3 witness: a transport that always answers 429 is retried twice with
delays 1000ms and 2000ms and then fails with the last 429 error; a
transport that answers 500 fails immediately with no retry. -/
theorem sendPushNotificationsAsync_retry_policy_witness :
    sendPushNotificationsAsync ([] : List (ExpoPushMessage Unit))
        (fun _ => ⟨429, .unparsable "rate"⟩) =
      (.error (.apiError (getTextResponseError 429 "rate")), [1000, 2000]) ∧
    sendPushNotificationsAsync ([] : List (ExpoPushMessage Unit))
        (fun _ => ⟨500, .unparsable "boom"⟩) =
      (.error (.apiError (getTextResponseError 500 "boom")), []) :=
  ⟨(sendPushNotificationsAsync_retry_policy [] (fun _ => ⟨429, .unparsable "rate"⟩)
      (getTextResponseError 429 "rate") (getTextResponseError 429 "rate")
      (getTextResponseError 429 "rate")).1 rfl rfl rfl rfl rfl,
    (sendPushNotificationsAsync_retry_policy [] (fun _ => ⟨500, .unparsable "boom"⟩)
      (getTextResponseError 500 "boom") (getTextResponseError 500 "boom")
      (getTextResponseError 500 "boom")).2 rfl (by decide)⟩

theorem sendPush_success_payload (messages : List (ExpoPushMessage α))
    (responses : Nat → HttpResponse) (text : String) (data : JValue)
    (h0 : responses 0 = ⟨200, .parsed text ⟨none, data⟩⟩) :
    sendPushNotificationsAsync messages responses =
      (validateTickets (_getActualMessageCount messages) data, []) := by
  have hf : (fun attempt => requestAsync (responses attempt)) 0 = Except.ok data := by
    show requestAsync (responses 0) = Except.ok data
    rw [h0]
    rfl
  unfold sendPushNotificationsAsync
  unfold promiseRetry
  rw [promiseRetryGo_ok _ _ _ _ _ _ data hf]
  rfl

/-- C2 (amended): with a successful first attempt whose normalized payload
is `data`, `sendPushNotificationsAsync` returns the payload unchanged
exactly when it is a list whose length equals the recipient count of the
original message list (scalar recipient counts as 1, list recipient
counts as its length); any other payload makes the call fail — with a
count-mismatch error carrying the raw payload when the payload is not
`null`/`undefined`, and with a runtime type error (from evaluating
`data.length` in the mismatch message) when the payload is `null` or
`undefined`. The call never silently truncates. -/
theorem sendPushNotificationsAsync_cardinality (messages : List (ExpoPushMessage α))
    (responses : Nat → HttpResponse) (text : String) (data : JValue)
    (h0 : responses 0 = ⟨200, .parsed text ⟨none, data⟩⟩) :
    (∀ v, (sendPushNotificationsAsync messages responses).1 = .ok v →
        v = data ∧ ∃ xs, data = .arr xs ∧ xs.length = _getActualMessageCount messages) ∧
    ((∃ xs, data = .arr xs ∧ xs.length = _getActualMessageCount messages) →
        (sendPushNotificationsAsync messages responses).1 = .ok data) ∧
    ((¬ ∃ xs, data = .arr xs ∧ xs.length = _getActualMessageCount messages) →
      jsNonNullish data = true →
        ∃ e : NormError, (sendPushNotificationsAsync messages responses).1
            = .error (.apiError e) ∧
          e.data = some data ∧
          ∃ lenVal, jsLengthProp data = .ok lenVal ∧
            e.message = countMismatchMessage (_getActualMessageCount messages)
              (jsDisplay lenVal)) ∧
    (jsNonNullish data = false →
        ∃ s, (sendPushNotificationsAsync messages responses).1 = .error (.typeError s)) := by
  have hsend := sendPush_success_payload messages responses text data h0
  rw [hsend]
  refine ⟨?_, ?_, ?_, ?_⟩
  · intro v hv
    dsimp only at hv
    cases data with
    | undefined => simp [validateTickets, jsLengthProp] at hv
    | null => simp [validateTickets, jsLengthProp] at hv
    | bool b => simp [validateTickets, jsLengthProp] at hv
    | num n => simp [validateTickets, jsLengthProp] at hv
    | str s => simp [validateTickets, jsLengthProp] at hv
    | obj fields => simp [validateTickets, jsLengthProp] at hv
    | arr xs =>
      simp only [validateTickets] at hv
      split at hv
      · next hlen => exact ⟨(Except.ok.inj hv).symm, xs, rfl, hlen⟩
      · next hlen => exact absurd hv (by simp)
  · rintro ⟨xs, rfl, hlen⟩
    dsimp only
    simp [validateTickets, hlen]
  · intro hnot hnn
    dsimp only
    cases data with
    | undefined => simp [jsNonNullish] at hnn
    | null => simp [jsNonNullish] at hnn
    | bool b => exact ⟨_, rfl, rfl, .undefined, rfl, rfl⟩
    | num n => exact ⟨_, rfl, rfl, .undefined, rfl, rfl⟩
    | str s => exact ⟨_, rfl, rfl, .num s.length, rfl, rfl⟩
    | obj fields =>
      exact ⟨_, rfl, rfl, Option.getD (fields.lookup "length") JValue.undefined, rfl, rfl⟩
    | arr xs =>
      have hlen : xs.length ≠ _getActualMessageCount messages := fun h => hnot ⟨xs, rfl, h⟩
      refine ⟨⟨countMismatchMessage (_getActualMessageCount messages)
          (jsDisplay (.num xs.length)), "Error", none, none, none, none, none, none, none,
          some (.arr xs)⟩, ?_, rfl, .num xs.length, rfl, rfl⟩
      simp only [validateTickets]
      rw [if_neg hlen]
  · intro hnn
    dsimp only
    cases data with
    | undefined => exact ⟨_, rfl⟩
    | null => exact ⟨_, rfl⟩
    | bool b => simp [jsNonNullish] at hnn
    | num n => simp [jsNonNullish] at hnn
    | str s => simp [jsNonNullish] at hnn
    | obj fields => simp [jsNonNullish] at hnn
    | arr xs => simp [jsNonNullish] at hnn

/-- C2 witness: a 200 response with an empty ticket list for an empty
message list is returned unchanged, and a 200 response whose payload is
`null` makes the call fail with a runtime type error. -/
theorem sendPushNotificationsAsync_cardinality_witness :
    (sendPushNotificationsAsync ([] : List (ExpoPushMessage Unit))
        (fun _ => ⟨200, .parsed "x" ⟨none, .arr []⟩⟩)).1 = .ok (.arr []) ∧
    (∃ s, (sendPushNotificationsAsync ([] : List (ExpoPushMessage Unit))
        (fun _ => ⟨200, .parsed "x" ⟨none, .null⟩⟩)).1 = .error (.typeError s)) :=
  ⟨(sendPushNotificationsAsync_cardinality [] (fun _ => ⟨200, .parsed "x" ⟨none, .arr []⟩⟩)
      "x" (.arr []) rfl).2.1 ⟨[], rfl, rfl⟩,
    (sendPushNotificationsAsync_cardinality [] (fun _ => ⟨200, .parsed "x" ⟨none, .null⟩⟩)
      "x" .null rfl).2.2.2 rfl⟩

/-- C2 counterexample: when the normalized success payload is `null`
(server body `{"data": null}`), the call fails with a runtime `TypeError`
raised while building the mismatch message, not with a count-mismatch
error carrying the raw payload as the claim states. -/
theorem sendPushNotificationsAsync_cardinality_cex :
    (sendPushNotificationsAsync ([] : List (ExpoPushMessage Unit))
        (fun _ => ⟨200, .parsed "x" ⟨none, .null⟩⟩)).1 =
      .error (.typeError "TypeError: Cannot read properties of null") := rfl

theorem consumeGroup_append : ∀ (g rest : List Char), (∀ c ∈ g, regexTokenChar c = true) →
    consumeGroup g.length (g ++ rest) = some rest := by
  intro g
  induction g with
  | nil => intro rest _; rfl
  | cons c g ih =>
    intro rest hall
    have hc : regexTokenChar c = true := hall c (List.mem_cons_self c g)
    show consumeGroup (g.length + 1) (c :: (g ++ rest)) = some rest
    simp only [consumeGroup]
    rw [if_pos hc]
    exact ih rest (fun c' hc' => hall c' (List.mem_cons_of_mem c hc'))

theorem consumeGroup_some : ∀ (n : Nat) (cs rest : List Char),
    consumeGroup n cs = some rest →
    ∃ g, cs = g ++ rest ∧ g.length = n ∧ ∀ c ∈ g, regexTokenChar c = true := by
  intro n
  induction n with
  | zero =>
    intro cs rest h
    simp only [consumeGroup, Option.some.injEq] at h
    exact ⟨[], by rw [h]; rfl, rfl, by intro c hc; cases hc⟩
  | succ n ih =>
    intro cs rest h
    cases cs with
    | nil => cases h
    | cons c cs' =>
      simp only [consumeGroup] at h
      split at h
      · next hc =>
        obtain ⟨g, hg, hlen, hall⟩ := ih cs' rest h
        refine ⟨c :: g, by rw [hg]; rfl, by simp [hlen], ?_⟩
        intro c' hc'
        rcases List.mem_cons.mp hc' with rfl | hmem
        · exact hc
        · exact hall c' hmem
      · cases h

theorem expectDash_some (cs : List Char) : expectDash (some ('-' :: cs)) = some cs := by
  simp [expectDash]

theorem expectDash_eq_some : ∀ (o : Option (List Char)) (rest : List Char),
    expectDash o = some rest → o = some ('-' :: rest) := by
  intro o rest h
  cases o with
  | none => cases h
  | some l =>
    cases l with
    | nil => cases h
    | cons c cs =>
      simp only [expectDash] at h
      split at h
      · next hc =>
        subst hc
        rw [Option.some.inj h]
      · cases h

theorem uuidMatch_iff (cs : List Char) :
    uuidMatch cs = true ↔
      ∃ g1 g2 g3 g4 g5 : List Char,
        cs = g1 ++ '-' :: (g2 ++ '-' :: (g3 ++ '-' :: (g4 ++ '-' :: g5))) ∧
        g1.length = 8 ∧ g2.length = 4 ∧ g3.length = 4 ∧ g4.length = 4 ∧ g5.length = 12 ∧
        (∀ c ∈ g1, regexTokenChar c) ∧ (∀ c ∈ g2, regexTokenChar c) ∧
        (∀ c ∈ g3, regexTokenChar c) ∧ (∀ c ∈ g4, regexTokenChar c) ∧
        (∀ c ∈ g5, regexTokenChar c) := by
  constructor
  · intro h
    unfold uuidMatch at h
    split at h
    · exact absurd h (by simp)
    · next cs1 heq1 =>
      split at h
      · exact absurd h (by simp)
      · next cs2 heq2 =>
        split at h
        · exact absurd h (by simp)
        · next cs3 heq3 =>
          split at h
          · exact absurd h (by simp)
          · next cs4 heq4 =>
            have d1 := expectDash_eq_some _ _ heq1
            have d2 := expectDash_eq_some _ _ heq2
            have d3 := expectDash_eq_some _ _ heq3
            have d4 := expectDash_eq_some _ _ heq4
            have heq5 : consumeGroup 12 cs4 = some [] := by rwa [beq_iff_eq] at h
            obtain ⟨g1, hcs, hl1, ha1⟩ := consumeGroup_some 8 _ _ d1
            obtain ⟨g2, hcs1, hl2, ha2⟩ := consumeGroup_some 4 _ _ d2
            obtain ⟨g3, hcs2, hl3, ha3⟩ := consumeGroup_some 4 _ _ d3
            obtain ⟨g4, hcs3, hl4, ha4⟩ := consumeGroup_some 4 _ _ d4
            obtain ⟨g5, hcs4, hl5, ha5⟩ := consumeGroup_some 12 _ _ heq5
            rw [List.append_nil] at hcs4
            refine ⟨g1, g2, g3, g4, g5, ?_, hl1, hl2, hl3, hl4, hl5,
              ha1, ha2, ha3, ha4, ha5⟩
            rw [hcs, hcs1, hcs2, hcs3, hcs4]
  · rintro ⟨g1, g2, g3, g4, g5, hcs, hl1, hl2, hl3, hl4, hl5, ha1, ha2, ha3, ha4, ha5⟩
    subst hcs
    unfold uuidMatch
    have e1 : consumeGroup 8 (g1 ++ '-' :: (g2 ++ '-' :: (g3 ++ '-' :: (g4 ++ '-' :: g5))))
        = some ('-' :: (g2 ++ '-' :: (g3 ++ '-' :: (g4 ++ '-' :: g5)))) := by
      rw [← hl1]
      exact consumeGroup_append g1 _ ha1
    rw [e1, expectDash_some]
    dsimp only
    have e2 : consumeGroup 4 (g2 ++ '-' :: (g3 ++ '-' :: (g4 ++ '-' :: g5)))
        = some ('-' :: (g3 ++ '-' :: (g4 ++ '-' :: g5))) := by
      rw [← hl2]
      exact consumeGroup_append g2 _ ha2
    rw [e2, expectDash_some]
    dsimp only
    have e3 : consumeGroup 4 (g3 ++ '-' :: (g4 ++ '-' :: g5))
        = some ('-' :: (g4 ++ '-' :: g5)) := by
      rw [← hl3]
      exact consumeGroup_append g3 _ ha3
    rw [e3, expectDash_some]
    dsimp only
    have e4 : consumeGroup 4 (g4 ++ '-' :: g5) = some ('-' :: g5) := by
      rw [← hl4]
      exact consumeGroup_append g4 _ ha4
    rw [e4, expectDash_some]
    dsimp only
    have e5 : consumeGroup 12 g5 = some [] := by
      rw [← hl5]
      have h := consumeGroup_append g5 [] ha5
      rwa [List.append_nil] at h
    rw [e5]
    simp

/-- C8 (amended): `isExpoPushToken` is a pure predicate returning true
exactly for strings that either start with `ExponentPushToken[` or
`ExpoPushToken[` and end with `]`, or are UUID-shaped strings of
8-4-4-4-12 dash-separated groups of ASCII alphanumeric characters
(letters or digits, case-insensitive — the regex class `[a-z\d]` with
the `i` flag, not only hexadecimal-style characters); it returns false
for every non-string value. -/
theorem isExpoPushToken_spec (token : JValue) :
    isExpoPushToken token = true ↔
      ∃ s, token = .str s ∧
        (((strStartsWith s "ExponentPushToken[" || strStartsWith s "ExpoPushToken[")
            && strEndsWith s "]") = true ∨ UuidShaped s) := by
  cases token with
  | str s =>
    simp only [isExpoPushToken, Bool.or_eq_true]
    constructor
    · rintro (h | h)
      · exact ⟨s, rfl, Or.inl h⟩
      · exact ⟨s, rfl, Or.inr ((uuidMatch_iff s.data).mp h)⟩
    · rintro ⟨s', hs, h | h⟩
      · cases hs
        exact Or.inl h
      · cases hs
        exact Or.inr ((uuidMatch_iff s.data).mpr h)
  | undefined =>
    constructor
    · intro h; simp [isExpoPushToken] at h
    · rintro ⟨s, hs, _⟩; cases hs
  | null =>
    constructor
    · intro h; simp [isExpoPushToken] at h
    · rintro ⟨s, hs, _⟩; cases hs
  | bool b =>
    constructor
    · intro h; simp [isExpoPushToken] at h
    · rintro ⟨s, hs, _⟩; cases hs
  | num n =>
    constructor
    · intro h; simp [isExpoPushToken] at h
    · rintro ⟨s, hs, _⟩; cases hs
  | arr xs =>
    constructor
    · intro h; simp [isExpoPushToken] at h
    · rintro ⟨s, hs, _⟩; cases hs
  | obj fields =>
    constructor
    · intro h; simp [isExpoPushToken] at h
    · rintro ⟨s, hs, _⟩; cases hs

set_option maxRecDepth 10000 in
/-- C8 counterexample: the source predicate accepts the string
`zzzzzzzz-zzzz-zzzz-zzzz-zzzzzzzzzzzz`, whose groups contain no
hexadecimal-style characters, while the predicate as the claim words it
(hexadecimal-style groups) rejects it. -/
theorem isExpoPushToken_cex :
    isExpoPushToken (.str "zzzzzzzz-zzzz-zzzz-zzzz-zzzzzzzzzzzz") = true ∧
    isExpoPushTokenClaim (.str "zzzzzzzz-zzzz-zzzz-zzzz-zzzzzzzzzzzz") = false := by
  exact ⟨by decide, by decide⟩
